import Mathlib

/-!
Shallow embedding of `simpleperf/scripts/unwinding_result_reporter.py`.

The Python script reconstructs per-process address-space maps from a textual
trace, resolves call-chain frames against them, and aggregates unwinding
failures.  Addresses, pids and offsets are unbounded Python integers parsed
from non-negative decimal/hex text, so they are modelled as `Nat`; the `dict`
objects keyed by pid / string are modelled as total functions whose default
value is the same value `dict.get(key, default)` supplies in the source.
-/

/-- MapEntry from the source: an address range `[start, end)` tagged with the
backing file name.  `__lt__` compares `start` only. -/
structure MapEntry where
  start : Nat
  «end» : Nat
  filename : String
deriving DecidableEq, Repr, Inhabited

/-- Loop body of `ProcessMaps.add` (lines 51-72): walk the old list in order,
copying, truncating or dropping existing entries and inserting `map_entry`
exactly once.  The Boolean argument is the source's `map_entry_used` flag;
the trailing `if not map_entry_used: new_list.append(map_entry)` is the
base case. -/
def addMapEntry : List MapEntry → MapEntry → Bool → List MapEntry
  | [], m, used => if used then [] else [m]
  | e :: rest, m, used =>
    if e.«end» ≤ m.start then
      e :: addMapEntry rest m used
    else if e.start < m.start then
      { e with «end» := m.start } :: addMapEntry rest m used
    else
      let rest' := addMapEntry rest m true
      let tail :=
        if m.«end» ≤ e.start then e :: rest'
        else if m.«end» < e.«end» then { e with start := m.«end» } :: rest'
        else rest'
      if used then tail else m :: tail

/-- ProcessMaps from the source: `process_maps` maps a pid to its sorted list
of `MapEntry` (a missing pid behaves as the empty list, as in
`self.process_maps.get(pid, [])`). -/
structure ProcessMaps where
  process_maps : Nat → List MapEntry

/-- Fresh `ProcessMaps()` (no pid has any entry). -/
def ProcessMaps.init : ProcessMaps := ⟨fun _ => []⟩

/-- `ProcessMaps.add` (lines 51-72): rebuild the pid's list around the new
entry; other pids are untouched. -/
def ProcessMaps.add (pm : ProcessMaps) (pid : Nat) (m : MapEntry) : ProcessMaps :=
  ⟨fun p => if p = pid then addMapEntry (pm.process_maps pid) m false else pm.process_maps p⟩

/-- `ProcessMaps.fork_pid` (lines 74-78): a self-fork returns immediately;
otherwise the child pid receives a deep copy of the parent's current list
(deep copying is the identity in this pure model -- it is what makes the
pure model faithful, since the source never shares entry objects between
two pids' lists afterwards). -/
def ProcessMaps.fork_pid (pm : ProcessMaps) (pid ppid : Nat) : ProcessMaps :=
  if pid = ppid then pm
  else ⟨fun p => if p = pid then pm.process_maps ppid else pm.process_maps p⟩

/-- Python `bisect.bisect_right` specialised to a list of `MapEntry` compared
by `__lt__` (i.e. by `start`): the standard binary search with the loop
`if x < a[mid]: hi = mid else: lo = mid + 1`.  `a[mid]` is modelled with
`getD` (all calls keep the index in bounds). -/
def bisect_right (a : List MapEntry) (addr : Nat) (lo hi : Nat) : Nat :=
  if h : lo < hi then
    if addr < (a.getD ((lo + hi) / 2) default).start then bisect_right a addr lo ((lo + hi) / 2)
    else bisect_right a addr ((lo + hi) / 2 + 1) hi
  else lo
termination_by hi - lo
decreasing_by
  · omega
  · omega

/-- `ProcessMaps.find` (lines 80-86): binary search with a key whose `start`
is `addr`, then a hit only if the preceding entry's `end` exceeds `addr`. -/
def ProcessMaps.find (pm : ProcessMaps) (pid : Nat) (addr : Nat) : Option MapEntry :=
  let entry_list := pm.process_maps pid
  let pos := bisect_right entry_list addr 0 entry_list.length
  if pos > 0 ∧ addr < (entry_list.getD (pos - 1) default).«end» then
    some (entry_list.getD (pos - 1) default)
  else none

/-- Mutating operations the trace applies to `ProcessMaps`, in trace order
(`record mmap` drives `add`, `record fork` drives `fork_pid`). -/
inductive MapOp where
  | add (pid : Nat) (m : MapEntry)
  | fork (pid ppid : Nat)
deriving DecidableEq, Repr

/-- Apply one operation. -/
def applyMapOp (pm : ProcessMaps) (op : MapOp) : ProcessMaps :=
  match op with
  | .add pid m => pm.add pid m
  | .fork pid ppid => pm.fork_pid pid ppid

/-- Run a sequence of operations from the fresh state. -/
def runMapOps (ops : List MapOp) : ProcessMaps :=
  ops.foldl applyMapOp ProcessMaps.init

/-- An `add` operation carries a genuine range (`start < end`); `mmap`
records always do, since the mapped length is positive. -/
def mapOpValid : MapOp → Bool
  | .add _ m => m.start < m.«end»
  | .fork _ _ => true

/-- Validity invariant of one pid's list: consecutive entries are separated
(`end ≤ start` of anything later) and every entry is a genuine range. -/
def ValidL (l : List MapEntry) : Prop :=
  l.Pairwise (fun a b => a.«end» ≤ b.start) ∧ ∀ e ∈ l, e.start < e.«end»

/-- CallChainNode from the source (lines 109-121). -/
structure CallChainNode where
  ip : Nat
  sp : Nat
  filename : String
  vaddr_in_file : Nat
  function_name : String
  map_start_addr : Nat
  map_end_addr : Nat
deriving DecidableEq, Repr, Inhabited

/-- The fields of the `unwinding_result` ordered dict that the core reads.
The source keeps string values and converts `used_time` with `int(...)`
at the single place it is consumed; the model stores the two consumed
values directly (`used_time` numeric, `stop_reason` a string) plus the
required `time` key, which the core never reads. -/
structure UnwindingResult where
  time : Int
  used_time : Int
  stop_reason : String
deriving DecidableEq, Repr, Inhabited

/-- SampleResult from the source (lines 124-132). -/
structure SampleResult where
  pid : Nat
  tid : Nat
  unwinding_result : UnwindingResult
  callchain : List CallChainNode
deriving DecidableEq, Repr, Inhabited

/-- Python `callchain[-1]`: the anchor (last) node of a chain.  On an empty
chain the source raises `IndexError`; the model returns `default` there and
every theorem touching an anchor assumes the chain is non-empty. -/
def anchor (callchain : List CallChainNode) : CallChainNode :=
  callchain.getLastD default

/-- UnwindingTimes from the source (lines 96-106). -/
structure UnwindingTimes where
  total_time : Int
  count : Nat
  max_time : Int
deriving DecidableEq, Repr

/-- Fresh `UnwindingTimes()`. -/
def UnwindingTimes.init : UnwindingTimes := ⟨0, 0, 0⟩

/-- `UnwindingTimes.add_time` (lines 103-106). -/
def UnwindingTimes.add_time (ut : UnwindingTimes) (used_time : Int) : UnwindingTimes :=
  ⟨ut.total_time + used_time, ut.count + 1, max ut.max_time used_time⟩

/-- FunctionResult from the source (lines 145-164): a map from stop reason to
the capped list of sample results (a missing key behaves as the empty
list, matching `self.sample_results.get(stop_reason)` followed by the
`if not result_list` default-install). -/
structure FunctionResult where
  sample_results : String → List SampleResult

/-- Fresh `FunctionResult()`. -/
def FunctionResult.init : FunctionResult := ⟨fun _ => []⟩

/-- `FunctionResult.add_sample_result` (lines 153-164): drop duplicates (same
anchor `vaddr_in_file` already stored under this stop reason), then append
only while the list holds fewer than 10 entries. -/
def FunctionResult.add_sample_result (fr : FunctionResult) (s : SampleResult) : FunctionResult :=
  let stop_reason := s.unwinding_result.stop_reason
  let result_list := fr.sample_results stop_reason
  if result_list.any (fun r => (anchor r.callchain).vaddr_in_file == (anchor s.callchain).vaddr_in_file) then
    fr
  else if result_list.length < 10 then
    ⟨fun sr => if sr = stop_reason then result_list ++ [s] else fr.sample_results sr⟩
  else
    fr

/-- FileResult from the source (lines 172-185): a map from function name to
its `FunctionResult` (missing keys behave as a fresh `FunctionResult()`). -/
structure FileResult where
  function_results : String → FunctionResult

/-- Fresh `FileResult()`. -/
def FileResult.init : FileResult := ⟨fun _ => FunctionResult.init⟩

/-- `FileResult.add_sample_result` (lines 179-185): route the sample to the
`FunctionResult` of its anchor node's function name. -/
def FileResult.add_sample_result (fr : FileResult) (s : SampleResult) : FileResult :=
  let function_name := (anchor s.callchain).function_name
  ⟨fun g => if g = function_name then (fr.function_results function_name).add_sample_result s
            else fr.function_results g⟩

/-- Classified body line of one `record callchain:` record, as the source's
line loop (lines 272-304) classifies raw text: a `pid`/`tid` line, a
`chain_type` line, an `ip ..., sp ...` line whose regex matched, the
`callchain:` marker, a function line inside the callchain section whose
regex matched, or anything else (blank lines, lines whose regex failed),
which the loop skips.  The regex extraction itself is the low-level
tokenizing layer; this type is its output schema. -/
inductive DumpLine where
  | pidLine (n : Nat)
  | tidLine (n : Nat)
  | chainTypeLine (s : String)
  | ipLine (ip sp : Nat)
  | callchainMarker
  | chainEntry (function_name filename : String) (vaddr : Nat)
  | otherLine
deriving DecidableEq, Repr, Inhabited

/-- CallChainRecord from the source (lines 250-256). -/
structure CallChainRecord where
  pid : Option Nat
  tid : Option Nat
  callchain : List CallChainNode
deriving DecidableEq, Repr, Inhabited

/-- The two substrings whose presence in the anchor's filename marks code
generated in memory (line 216). -/
def in_memory_code_markers : List String :=
  ["/dev/ashmem/dalvik-jit-code-cache", "//anon"]

/-- C runtime library suffix tested by `is_callchain_complete` (line 223). -/
def libc_so : String := "libc.so"

/-- The two well-known thread-entry symbols (line 224). -/
def entry_symbols : List String := ["__libc_init", "__start_thread"]

/-- Python `pat in s`: substring containment. -/
def strContains (s pat : String) : Bool :=
  s.toList.tails.any (fun t => pat.toList.isPrefixOf t)

/-- Python `s.endswith(suf)`. -/
def strEndsWith (s suf : String) : Bool :=
  suf.toList.isSuffixOf s.toList

/-- Helper `is_callchain_complete` inside `should_omit` (lines 221-226): the
chain contains a frame in `libc.so` at one of the thread-entry symbols. -/
def is_callchain_complete (callchain : List CallChainNode) : Bool :=
  callchain.any (fun node =>
    strEndsWith node.filename libc_so && entry_symbols.contains node.function_name)

/-- UnwindingResultErrorReport from the source (lines 194-232): the flag, the
address-space registry, the timing statistics and the per-file results
(missing filenames behave as a fresh `FileResult()`). -/
structure UnwindingResultErrorReport where
  omit_callchains_fixed_by_joiner : Bool
  process_maps : ProcessMaps
  unwinding_times : UnwindingTimes
  file_results : String → FileResult

/-- Fresh `UnwindingResultErrorReport(flag)` (lines 198-202). -/
def UnwindingResultErrorReport.init (flag : Bool) : UnwindingResultErrorReport :=
  ⟨flag, ProcessMaps.init, UnwindingTimes.init, fun _ => FileResult.init⟩

/-- `UnwindingResultErrorReport.should_omit` (lines 214-232), with the three
checks in source order: in-memory-code marker in the anchor's filename,
then completeness of the primary chain, then (only under the flag)
completeness of the joined chain. -/
def UnwindingResultErrorReport.should_omit (rep : UnwindingResultErrorReport)
    (sample_result : SampleResult) (joined_record : CallChainRecord) : Bool :=
  if in_memory_code_markers.any (fun name => strContains (anchor sample_result.callchain).filename name) then
    true
  else if is_callchain_complete sample_result.callchain then
    true
  else if rep.omit_callchains_fixed_by_joiner && is_callchain_complete joined_record.callchain then
    true
  else
    false

/-- `UnwindingResultErrorReport.add_sample_result` (lines 204-212): the timing
statistics are updated first and unconditionally; only then is the
omission decision taken, and a retained sample is routed to the
`FileResult` of its anchor node's filename. -/
def UnwindingResultErrorReport.add_sample_result (rep : UnwindingResultErrorReport)
    (sample_result : SampleResult) (joined_record : CallChainRecord) : UnwindingResultErrorReport :=
  let rep' := { rep with
    unwinding_times := rep.unwinding_times.add_time sample_result.unwinding_result.used_time }
  if rep'.should_omit sample_result joined_record then rep'
  else
    let filename := (anchor sample_result.callchain).filename
    { rep' with
      file_results := fun f => if f = filename then (rep'.file_results filename).add_sample_result sample_result
                               else rep'.file_results f }

/-- Accumulator of `parse_callchain_record`'s line loop (lines 263-271): the
record fields seen so far, the parallel per-frame lists, and the
`in_callchain` flag. -/
structure ParseSt where
  pid : Option Nat
  tid : Option Nat
  ips : List Nat
  sps : List Nat
  function_names : List String
  filenames : List String
  vaddr_in_files : List Nat
  in_callchain : Bool
deriving DecidableEq, Repr

/-- Initial accumulator of the line loop. -/
def ParseSt.init : ParseSt := ⟨none, none, [], [], [], [], [], false⟩

/-- Message of every fatal parse error in the source (`log_fatal` quotes the
offending line number; the model keeps the constant part). -/
def unexpected_dump_output : String := "unexpected dump output"

/-- One iteration of the line loop of `parse_callchain_record` (lines
272-304).  A `chain_type` line whose tag differs from the expected one is
fatal (line 284); `pid`/`tid` lines overwrite the record fields; an `ip`
line extends `ips` and `sps` together; a function line extends the three
parallel lists together, but only once the `callchain:` marker has been
seen; every other line is skipped.  `log_fatal` lives in the script's
`utils` module, outside this snapshot; per the spec a fatal parse error
aborts the whole run, modelled as `Except.error`. -/
def process_callchain_line (chain_type : String) (st : ParseSt) (line : DumpLine) :
    Except String ParseSt :=
  match line with
  | .pidLine n => .ok { st with pid := some n }
  | .tidLine n => .ok { st with tid := some n }
  | .chainTypeLine s =>
      if s = chain_type then .ok st else .error unexpected_dump_output
  | .ipLine ip sp => .ok { st with ips := st.ips ++ [ip], sps := st.sps ++ [sp] }
  | .callchainMarker => .ok { st with in_callchain := true }
  | .chainEntry function_name filename vaddr =>
      if st.in_callchain then
        .ok { st with function_names := st.function_names ++ [function_name],
                      filenames := st.filenames ++ [filename],
                      vaddr_in_files := st.vaddr_in_files ++ [vaddr] }
      else .ok st
  | .otherLine => .ok st

/-- The source's `while` loop over the record body (lines 272-304): process
lines in order, stopping with the fatal error as soon as one line is
fatal. -/
def runParseLines (chain_type : String) : ParseSt → List DumpLine → Except String ParseSt
  | st, [] => .ok st
  | st, line :: rest =>
    match process_callchain_line chain_type st line with
    | .error e => .error e
    | .ok st' => runParseLines chain_type st' rest

/-- Map-bound lookup after the line loop (lines 306-313): each instruction
pointer is looked up under the record's pid; a missing pid or a missing
covering range yields the zero/zero sentinel. -/
def lookupMapBound (process_maps : ProcessMaps) (pid : Option Nat) (ip : Nat) : Nat × Nat :=
  match pid with
  | some p =>
      match process_maps.find p ip with
      | some entry => (entry.start, entry.«end»)
      | none => (0, 0)
  | none => (0, 0)

/-- `parse_callchain_record` (lines 259-323) on the classified body lines of
one record: run the line loop (fatal on a chain-type mismatch), derive the
map bounds, apply the structural check of lines 314-318 (pid/tid present,
a non-zero number of ip pairs, and all parallel lists of equal length),
and on success build one `CallChainNode` per frame, in input order. -/
def parse_callchain_record (chain_type : String) (lines : List DumpLine)
    (process_maps : ProcessMaps) : Except String CallChainRecord :=
  match runParseLines chain_type ParseSt.init lines with
  | .error e => .error e
  | .ok st =>
      let map_start_addrs := st.ips.map (fun ip => (lookupMapBound process_maps st.pid ip).1)
      let map_end_addrs := st.ips.map (fun ip => (lookupMapBound process_maps st.pid ip).2)
      let n := st.ips.length
      if st.pid = none ∨ st.tid = none ∨ n = 0 ∨ st.sps.length ≠ n ∨
          st.function_names.length ≠ n ∨ st.filenames.length ≠ n ∨
          st.vaddr_in_files.length ≠ n ∨ map_start_addrs.length ≠ n ∨
          map_end_addrs.length ≠ n then
        .error unexpected_dump_output
      else
        .ok ⟨st.pid, st.tid,
          (List.range n).map (fun j =>
            ⟨st.ips.getD j 0, st.sps.getD j 0, st.filenames.getD j default,
             st.vaddr_in_files.getD j 0, st.function_names.getD j default,
             map_start_addrs.getD j 0, map_end_addrs.getD j 0⟩)⟩

/-- Last `pid` line of a record body starting from a previous value (later
lines overwrite earlier ones, as the source's loop does). -/
def lastPidFrom (p : Option Nat) (lines : List DumpLine) : Option Nat :=
  lines.foldl (fun acc l => match l with | .pidLine n => some n | _ => acc) p

/-- Last `tid` line of a record body starting from a previous value. -/
def lastTidFrom (p : Option Nat) (lines : List DumpLine) : Option Nat :=
  lines.foldl (fun acc l => match l with | .tidLine n => some n | _ => acc) p

/-- Last `pid` line of a record body. -/
def lastPidOf (lines : List DumpLine) : Option Nat := lastPidFrom none lines

/-- Last `tid` line of a record body. -/
def lastTidOf (lines : List DumpLine) : Option Nat := lastTidFrom none lines

/-- The (instruction pointer, stack pointer) pairs of a record body, in input
order. -/
def ipPairsOf (lines : List DumpLine) : List (Nat × Nat) :=
  lines.filterMap (fun l => match l with | .ipLine ip sp => some (ip, sp) | _ => none)

/-- The (function name, filename, offset) triples of a record body, in input
order; only function lines after the `callchain:` marker count. -/
def triplesOfAux (flag : Bool) : List DumpLine → List (String × String × Nat)
  | [] => []
  | .callchainMarker :: rest => triplesOfAux true rest
  | .chainEntry function_name filename vaddr :: rest =>
      if flag then (function_name, filename, vaddr) :: triplesOfAux flag rest
      else triplesOfAux flag rest
  | _ :: rest => triplesOfAux flag rest

/-- The (function name, filename, offset) triples of a record body. -/
def triplesOf (lines : List DumpLine) : List (String × String × Nat) :=
  triplesOfAux false lines

/-- The record body carries a `chain_type` line whose tag differs from the
expected one. -/
def hasBadChainType (chain_type : String) (lines : List DumpLine) : Prop :=
  ∃ s, DumpLine.chainTypeLine s ∈ lines ∧ s ≠ chain_type

/-- Modelled from the spec: the malformation conditions of a callchain record
as the specification lists them -- a chain-type tag mismatch, a missing
pid or tid, zero (instruction pointer, stack pointer) pairs, or a pair
count that differs from the (function, file, offset) triple count.  This
is the spec-side predicate the parser is compared against. -/
def specMalformed (chain_type : String) (lines : List DumpLine) : Prop :=
  hasBadChainType chain_type lines ∨ lastPidOf lines = none ∨ lastTidOf lines = none ∨
    ipPairsOf lines = [] ∨ (triplesOf lines).length ≠ (ipPairsOf lines).length

/-- Validity of a whole registry: every pid's list is valid. -/
def ValidPM (pm : ProcessMaps) : Prop := ∀ pid, ValidL (pm.process_maps pid)

/-- Run a sequence of `add` calls from the fresh registry (the shape of run
claim C2 quantifies over). -/
def runAdds (adds : List (Nat × MapEntry)) : ProcessMaps :=
  adds.foldl (fun pm p => pm.add p.1 p.2) ProcessMaps.init

/-- Feed a sequence of samples to one `FunctionResult`. -/
def runFunctionSamples (ss : List SampleResult) : FunctionResult :=
  ss.foldl FunctionResult.add_sample_result FunctionResult.init

/-- Feed a sequence of (sample, joined record) pairs to a fresh report. -/
def runSamples (flag : Bool) (l : List (SampleResult × CallChainRecord)) :
    UnwindingResultErrorReport :=
  l.foldl (fun rep p => rep.add_sample_result p.1 p.2) (UnwindingResultErrorReport.init flag)

/-- Concrete sample used by witnesses: an ordinary resolved frame in a shared
library, not matched by any omission heuristic. -/
def plainSample : SampleResult :=
  ⟨1, 1, ⟨100, 5, "r"⟩, [⟨4096, 8192, "/system/lib/libfoo.so", 42, "func", 4096, 16384⟩]⟩

/-- Concrete sample used by witnesses: same anchor triple and same anchor
offset as `plainSample`, but different pid, tid and timestamp. -/
def dupSample : SampleResult :=
  ⟨9, 8, ⟨999, 7, "r"⟩, [⟨4100, 8200, "/system/lib/libfoo.so", 42, "func", 4096, 16384⟩]⟩

/-- Concrete sample used by witnesses: its anchor frame sits in the in-memory
JIT cache and its chain even reaches a known thread-entry symbol. -/
def anonSample : SampleResult :=
  ⟨2, 3, ⟨200, 11, "q"⟩,
   [⟨1, 1, "/system/lib/libc.so", 7, "__libc_init", 0, 0⟩,
    ⟨2, 2, "/dev/ashmem/dalvik-jit-code-cache (deleted)", 9, "jit", 0, 0⟩]⟩

/-- Concrete joined record used by witnesses. -/
def demoJoined : CallChainRecord := ⟨some 1, some 1, []⟩

/-- Report holding exactly `plainSample`, used by the dedup witness. -/
def dupDemoReport : UnwindingResultErrorReport :=
  (UnwindingResultErrorReport.init false).add_sample_result plainSample demoJoined

/-- Stop reason shared by the capacity witness's samples. -/
def capReason : String := "r"

/-- Sample number `i` of the capacity witness: anchor offset `i`, same triple
for every `i`. -/
def capSample (i : Nat) : SampleResult :=
  ⟨1, 1, ⟨0, 1, capReason⟩, [⟨0, 0, "/system/lib/libfoo.so", i, "func", 0, 0⟩]⟩

/-- The primary chain's tag (line 371 of the source). -/
def original_chain_type : String := "ORIGINAL_OFFLINE"

/-- Body of a well-formed callchain record, used by the parser witness. -/
def demoRecordLines : List DumpLine :=
  [DumpLine.pidLine 10, DumpLine.tidLine 11,
   DumpLine.chainTypeLine original_chain_type, DumpLine.ipLine 100 200,
   DumpLine.callchainMarker, DumpLine.chainEntry ("f") ("/a.so") 16]

/-- The record the parser witness expects back from `demoRecordLines`. -/
def demoRecord : CallChainRecord :=
  ⟨some 10, some 11, [⟨100, 200, "/a.so", 16, "f", 0, 0⟩]⟩

/-- Decidable equality of parser outcomes, so witnesses can be evaluated. -/
instance {ε α : Type} [DecidableEq ε] [DecidableEq α] : DecidableEq (Except ε α)
  | .error e, .error f =>
      if h : e = f then .isTrue (by rw [h]) else .isFalse (fun hc => h (Except.error.inj hc))
  | .error _, .ok _ => .isFalse (fun hc => Except.noConfusion hc)
  | .ok _, .error _ => .isFalse (fun hc => Except.noConfusion hc)
  | .ok a, .ok b =>
      if h : a = b then .isTrue (by rw [h]) else .isFalse (fun hc => h (Except.ok.inj hc))

/-! ## Invariant lemmas for `ProcessMaps.add` -/

/-- Once `map_entry` has been inserted (`used = true`), the rest of the walk
keeps the list valid and pushes every surviving start up to at least
`map_entry.end`, while never dropping below any lower bound `b` on the
original starts. -/
theorem addMapEntry_true_valid (m : MapEntry) :
    ∀ (l : List MapEntry) (b : Nat), ValidL l → (∀ e ∈ l, m.start ≤ e.start) →
      (∀ e ∈ l, b ≤ e.start) →
      ValidL (addMapEntry l m true) ∧
        ∀ e ∈ addMapEntry l m true, max b m.«end» ≤ e.start := by
  intro l
  induction l with
  | nil =>
      intro b _ _ _
      refine ⟨⟨List.Pairwise.nil, ?_⟩, ?_⟩ <;> simp [addMapEntry]
  | cons e rest ih =>
      intro b hv hms hb
      have hpair := List.pairwise_cons.mp hv.1
      have hrestv : ValidL rest :=
        ⟨hpair.2, fun x hx => hv.2 x (List.mem_cons_of_mem _ hx)⟩
      have hestart : e.start < e.«end» := hv.2 e (List.mem_cons_self _ _)
      have hmse : m.start ≤ e.start := hms e (List.mem_cons_self _ _)
      have hbe : b ≤ e.start := hb e (List.mem_cons_self _ _)
      have hrest_lb : ∀ x ∈ rest, e.«end» ≤ x.start := hpair.1
      have hmsrest : ∀ x ∈ rest, m.start ≤ x.start := by
        intro x hx; have := hrest_lb x hx; omega
      obtain ⟨ihv, ihlb⟩ := ih e.«end» hrestv hmsrest hrest_lb
      have h1 : ¬ e.«end» ≤ m.start := by omega
      have h2 : ¬ e.start < m.start := by omega
      by_cases h3 : m.«end» ≤ e.start
      · simp only [addMapEntry, if_neg h1, if_neg h2, if_pos h3, if_true]
        refine ⟨⟨List.pairwise_cons.mpr ⟨fun x hx => ?_, ihv.1⟩, ?_⟩, ?_⟩
        · have := ihlb x hx; omega
        · intro x hx
          rcases List.mem_cons.mp hx with h | h
          · subst h; exact hestart
          · exact ihv.2 x h
        · intro x hx
          rcases List.mem_cons.mp hx with h | h
          · subst h; omega
          · have := ihlb x h; omega
      · by_cases h4 : m.«end» < e.«end»
        · simp only [addMapEntry, if_neg h1, if_neg h2, if_neg h3, if_pos h4, if_true]
          refine ⟨⟨List.pairwise_cons.mpr ⟨fun x hx => ?_, ihv.1⟩, ?_⟩, ?_⟩
          · have := ihlb x hx; simp only []; omega
          · intro x hx
            rcases List.mem_cons.mp hx with h | h
            · subst h; simpa using h4
            · exact ihv.2 x h
          · intro x hx
            rcases List.mem_cons.mp hx with h | h
            · subst h; simp only []; omega
            · have := ihlb x h; omega
        · simp only [addMapEntry, if_neg h1, if_neg h2, if_neg h3, if_neg h4, if_true]
          refine ⟨ihv, fun x hx => ?_⟩
          have := ihlb x hx; omega

/-- The full walk of `ProcessMaps.add` keeps a valid list valid, and never
moves any start below the smaller of the old lower bound and the new
entry's start. -/
theorem addMapEntry_false_valid (m : MapEntry) (hm : m.start < m.«end») :
    ∀ (l : List MapEntry) (b : Nat), ValidL l → (∀ e ∈ l, b ≤ e.start) →
      ValidL (addMapEntry l m false) ∧
        ∀ e ∈ addMapEntry l m false, min b m.start ≤ e.start := by
  intro l
  induction l with
  | nil =>
      intro b _ _
      refine ⟨⟨?_, ?_⟩, ?_⟩
      · simp [addMapEntry]
      · simp [addMapEntry, hm]
      · simp only [addMapEntry, if_neg (Bool.false_ne_true)]
        intro x hx
        rcases List.mem_cons.mp hx with h | h
        · subst h; omega
        · cases h
  | cons e rest ih =>
      intro b hv hb
      have hpair := List.pairwise_cons.mp hv.1
      have hrestv : ValidL rest :=
        ⟨hpair.2, fun x hx => hv.2 x (List.mem_cons_of_mem _ hx)⟩
      have hestart : e.start < e.«end» := hv.2 e (List.mem_cons_self _ _)
      have hbe : b ≤ e.start := hb e (List.mem_cons_self _ _)
      have hrest_lb : ∀ x ∈ rest, e.«end» ≤ x.start := hpair.1
      by_cases h1 : e.«end» ≤ m.start
      · obtain ⟨ihv, ihlb⟩ := ih e.«end» hrestv hrest_lb
        simp only [addMapEntry, if_pos h1]
        refine ⟨⟨List.pairwise_cons.mpr ⟨fun x hx => ?_, ihv.1⟩, ?_⟩, ?_⟩
        · have := ihlb x hx; omega
        · intro x hx
          rcases List.mem_cons.mp hx with h | h
          · subst h; exact hestart
          · exact ihv.2 x h
        · intro x hx
          rcases List.mem_cons.mp hx with h | h
          · subst h; omega
          · have := ihlb x h; omega
      · by_cases h2 : e.start < m.start
        · obtain ⟨ihv, ihlb⟩ := ih e.«end» hrestv hrest_lb
          simp only [addMapEntry, if_neg h1, if_pos h2]
          refine ⟨⟨List.pairwise_cons.mpr ⟨fun x hx => ?_, ihv.1⟩, ?_⟩, ?_⟩
          · have := ihlb x hx; simp only []; omega
          · intro x hx
            rcases List.mem_cons.mp hx with h | h
            · subst h; simp only []; omega
            · exact ihv.2 x h
          · intro x hx
            rcases List.mem_cons.mp hx with h | h
            · subst h; simp only []; omega
            · have := ihlb x h; omega
        · have hms : ∀ x ∈ e :: rest, m.start ≤ x.start := by
            intro x hx
            rcases List.mem_cons.mp hx with h | h
            · subst h; omega
            · have := hrest_lb x h; omega
          have hball : ∀ x ∈ e :: rest, b ≤ x.start := by
            intro x hx
            rcases List.mem_cons.mp hx with h | h
            · subst h; omega
            · have := hrest_lb x h; omega
          obtain ⟨tv, tlb⟩ := addMapEntry_true_valid m (e :: rest) b hv hms hball
          have htail : addMapEntry (e :: rest) m false = m :: addMapEntry (e :: rest) m true := by
            simp [addMapEntry, if_neg h1, if_neg h2]
          rw [htail]
          refine ⟨⟨List.pairwise_cons.mpr ⟨fun x hx => ?_, tv.1⟩, ?_⟩, ?_⟩
          · have := tlb x hx; omega
          · intro x hx
            rcases List.mem_cons.mp hx with h | h
            · subst h; exact hm
            · exact tv.2 x h
          · intro x hx
            rcases List.mem_cons.mp hx with h | h
            · subst h; omega
            · have := tlb x h; omega

/-- One `add` call with a genuine range keeps a pid's list valid. -/
theorem addMapEntry_valid (l : List MapEntry) (m : MapEntry)
    (hm : m.start < m.«end») (hv : ValidL l) : ValidL (addMapEntry l m false) :=
  (addMapEntry_false_valid m hm l 0 hv (fun _ _ => Nat.zero_le _)).1

/-- Every operation with a genuine range keeps the whole registry valid. -/
theorem applyMapOp_valid (pm : ProcessMaps) (op : MapOp)
    (hop : mapOpValid op = true) (hv : ValidPM pm) : ValidPM (applyMapOp pm op) := by
  cases op with
  | add pid m =>
      intro p
      simp only [applyMapOp, ProcessMaps.add]
      by_cases h : p = pid
      · simp only [if_pos h]
        exact addMapEntry_valid _ m (by simpa [mapOpValid] using hop) (hv pid)
      · simpa only [if_neg h] using hv p
  | fork pid ppid =>
      intro p
      simp only [applyMapOp, ProcessMaps.fork_pid]
      by_cases h : pid = ppid
      · simpa only [if_pos h] using hv p
      · simp only [if_neg h]
        by_cases h2 : p = pid
        · simpa only [if_pos h2] using hv ppid
        · simpa only [if_neg h2] using hv p

/-- Folding valid operations from a valid registry keeps it valid. -/
theorem foldl_applyMapOp_valid :
    ∀ (ops : List MapOp) (pm : ProcessMaps), (∀ op ∈ ops, mapOpValid op = true) →
      ValidPM pm → ValidPM (ops.foldl applyMapOp pm) := by
  intro ops
  induction ops with
  | nil => intro pm _ hv; simpa using hv
  | cons op rest ih =>
      intro pm hops hv
      simp only [List.foldl_cons]
      exact ih _ (fun o ho => hops o (List.mem_cons_of_mem _ ho))
        (applyMapOp_valid pm op (hops op (List.mem_cons_self _ _)) hv)

/-- Any state reachable by valid trace operations is valid. -/
theorem runMapOps_valid (ops : List MapOp) (hops : ∀ op ∈ ops, mapOpValid op = true) :
    ValidPM (runMapOps ops) := by
  refine foldl_applyMapOp_valid ops ProcessMaps.init hops ?_
  intro pid
  exact ⟨List.Pairwise.nil, by simp [ProcessMaps.init]⟩

/-! ## Correctness of the binary search in `ProcessMaps.find` -/

/-- On a list whose starts are monotone, `bisect_right` splits the indices:
everything below the returned position has `start ≤ addr`, everything at
or above it (within the list) has `start > addr`. -/
theorem bisect_right_spec (a : List MapEntry) (addr : Nat)
    (hsort : ∀ i j, i < j → j < a.length →
      (a.getD i default).start ≤ (a.getD j default).start) :
    ∀ (d lo hi : Nat), hi - lo = d → lo ≤ hi → hi ≤ a.length →
      (∀ i, i < lo → (a.getD i default).start ≤ addr) →
      (∀ i, hi ≤ i → i < a.length → addr < (a.getD i default).start) →
      (∀ i, i < bisect_right a addr lo hi → (a.getD i default).start ≤ addr) ∧
      (∀ i, bisect_right a addr lo hi ≤ i → i < a.length →
        addr < (a.getD i default).start) ∧
      bisect_right a addr lo hi ≤ a.length := by
  intro d
  induction d using Nat.strong_induction_on with
  | _ d ih =>
    intro lo hi hd hlohi hhilen hlo hhi
    by_cases h : lo < hi
    · rw [bisect_right, dif_pos h]
      by_cases haddr : addr < (a.getD ((lo + hi) / 2) default).start
      · rw [if_pos haddr]
        refine ih ((lo + hi) / 2 - lo) (by omega) lo ((lo + hi) / 2) rfl (by omega)
          (by omega) hlo ?_
        intro i hmidi hilen
        rcases Nat.eq_or_lt_of_le hmidi with hEq | hlt
        · rw [hEq] at haddr; exact haddr
        · exact lt_of_lt_of_le haddr (hsort _ i hlt hilen)
      · rw [if_neg haddr]
        refine ih (hi - ((lo + hi) / 2 + 1)) (by omega) ((lo + hi) / 2 + 1) hi rfl
          (by omega) hhilen ?_ hhi
        intro i hi'
        have hmidlen : (lo + hi) / 2 < a.length := by omega
        rcases Nat.lt_or_ge i ((lo + hi) / 2) with hlt | hge
        · exact le_trans (hsort i _ hlt hmidlen) (Nat.le_of_not_lt haddr)
        · have : i = (lo + hi) / 2 := by omega
          rw [this]; exact Nat.le_of_not_lt haddr
    · rw [bisect_right, dif_neg h]
      have : lo = hi := by omega
      exact ⟨hlo, fun i hi1 hi2 => hhi i (by omega) hi2, by omega⟩

/-- Point-lookup correctness of `ProcessMaps.find` on a valid per-pid list:
it returns exactly the stored covering range, and `none` exactly when no
stored range covers the address. -/
theorem find_spec_of_valid (pm : ProcessMaps) (pid addr : Nat)
    (hv : ValidL (pm.process_maps pid)) :
    (∀ e, pm.find pid addr = some e ↔
      e ∈ pm.process_maps pid ∧ e.start ≤ addr ∧ addr < e.«end») ∧
    (pm.find pid addr = none ↔
      ∀ e ∈ pm.process_maps pid, ¬(e.start ≤ addr ∧ addr < e.«end»)) := by
  set l := pm.process_maps pid with hl
  have hpairIdx : ∀ i j, i < j → (hj : j < l.length) →
      (l.getD i default).«end» ≤ (l.getD j default).start := by
    intro i j hij hj
    have hi : i < l.length := lt_trans hij hj
    rw [List.getD_eq_getElem l default hi, List.getD_eq_getElem l default hj]
    exact List.pairwise_iff_getElem.mp hv.1 i j hi hj hij
  have hgood : ∀ i, (hi : i < l.length) →
      (l.getD i default).start < (l.getD i default).«end» := by
    intro i hi
    rw [List.getD_eq_getElem l default hi]
    exact hv.2 _ (List.getElem_mem hi)
  have hsort : ∀ i j, i < j → j < l.length →
      (l.getD i default).start ≤ (l.getD j default).start := by
    intro i j hij hj
    have := hpairIdx i j hij hj
    have := hgood i (lt_trans hij hj)
    omega
  obtain ⟨h₁, h₂, h₃⟩ := bisect_right_spec l addr hsort (l.length - 0) 0 l.length rfl
    (Nat.zero_le _) (le_refl _) (fun i hi => absurd hi (Nat.not_lt_zero i))
    (fun i hi hi2 => absurd hi2 (Nat.not_lt.mpr hi))
  set pos := bisect_right l addr 0 l.length with hpos
  have hsome : ∀ e, pm.find pid addr = some e ↔
      e ∈ l ∧ e.start ≤ addr ∧ addr < e.«end» := by
    intro e
    constructor
    · intro hfind
      simp only [ProcessMaps.find, ← hl, ← hpos] at hfind
      by_cases hc : pos > 0 ∧ addr < (l.getD (pos - 1) default).«end»
      · rw [if_pos hc] at hfind
        have hposlt : pos - 1 < l.length := by omega
        have hmem : l.getD (pos - 1) default ∈ l := by
          rw [List.getD_eq_getElem l default hposlt]
          exact List.getElem_mem hposlt
        have hstart : (l.getD (pos - 1) default).start ≤ addr := h₁ _ (by omega)
        cases hfind
        exact ⟨hmem, hstart, hc.2⟩
      · rw [if_neg hc] at hfind
        cases hfind
    · rintro ⟨hmem, hs, hlt⟩
      obtain ⟨j, hj, hje⟩ := List.mem_iff_getElem.mp hmem
      have hjD : l.getD j default = e := by rw [List.getD_eq_getElem l default hj, hje]
      have hjpos : j < pos := by
        by_contra hcon
        have := h₂ j (Nat.le_of_not_lt hcon) hj
        rw [hjD] at this
        omega
      have hposlt : pos - 1 < l.length := by omega
      have hjeq : j = pos - 1 := by
        by_contra hne
        have hjlt : j < pos - 1 := by omega
        have hchain := hpairIdx j (pos - 1) hjlt hposlt
        have hstart : (l.getD (pos - 1) default).start ≤ addr := h₁ _ (by omega)
        rw [hjD] at hchain
        omega
      have hD : l.getD (pos - 1) default = e := by rw [← hjeq]; exact hjD
      simp only [ProcessMaps.find, ← hl, ← hpos]
      rw [if_pos ⟨by omega, by rw [hD]; exact hlt⟩, hD]
  refine ⟨hsome, ?_, ?_⟩
  · intro hnone e hmem hcov
    have := (hsome e).mpr ⟨hmem, hcov.1, hcov.2⟩
    rw [hnone] at this
    cases this
  · intro hno
    cases hfind : pm.find pid addr with
    | none => rfl
    | some x =>
        obtain ⟨hmem, hs, hlt⟩ := (hsome x).mp hfind
        exact absurd ⟨hs, hlt⟩ (hno x hmem)

/-! ## Claim theorems -/

/-- Claim C1, counterexample: inserting `[0,100)@"a"` and then `[10,20)@"b"`
into an empty overlay does NOT yield the three ranges
`[0,10)@"a", [10,20)@"b", [20,100)@"a"` -- the walk truncates the old
range to `[0,10)` and never re-emits its tail beyond the new range. -/
theorem contained_insert_counterexample :
    ¬ ((runAdds [(5, ⟨0, 100, "a"⟩), (5, ⟨10, 20, "b"⟩)]).process_maps 5 =
      [⟨0, 10, "a"⟩, ⟨10, 20, "b"⟩, ⟨20, 100, "a"⟩]) := by decide

/-- Claim C1 as amended: inserting `[0,100)@"a"` and then `[10,20)@"b"` into
an empty overlay yields exactly the two ranges `[0,10)@"a", [10,20)@"b"`
in that order; the tail `[20,100)` of the original mapping is dropped
when the inserted range is strictly contained in it. -/
theorem contained_insert_result :
    (runAdds [(5, ⟨0, 100, "a"⟩), (5, ⟨10, 20, "b"⟩)]).process_maps 5 =
      [⟨0, 10, "a"⟩, ⟨10, 20, "b"⟩] := by decide

/-- Claim C2: after any finite sequence of `add` calls whose ranges each
satisfy `start < end`, every pid's stored list is sorted strictly
ascending by start, every stored range still satisfies `start < end`, and
the stored ranges are pairwise non-overlapping. -/
theorem add_sequences_keep_lists_valid (adds : List (Nat × MapEntry))
    (h : ∀ p ∈ adds, p.2.start < p.2.«end») (pid : Nat) :
    ((runAdds adds).process_maps pid).Pairwise (fun a b => a.start < b.start) ∧
    (∀ e ∈ (runAdds adds).process_maps pid, e.start < e.«end») ∧
    ((runAdds adds).process_maps pid).Pairwise
      (fun a b => a.«end» ≤ b.start ∨ b.«end» ≤ a.start) := by
  have hrun : runAdds adds = runMapOps (adds.map (fun p => MapOp.add p.1 p.2)) := by
    simp only [runAdds, runMapOps, List.foldl_map]
    rfl
  have hv : ValidL ((runAdds adds).process_maps pid) := by
    rw [hrun]
    refine runMapOps_valid _ ?_ pid
    intro op hop
    obtain ⟨p, hp, rfl⟩ := List.mem_map.mp hop
    simpa [mapOpValid] using h p hp
  refine ⟨?_, hv.2, hv.1.imp Or.inl⟩
  refine hv.1.imp_of_mem ?_
  intro a b ha _ hab
  have := hv.2 a ha
  omega

/-- Claim C3: on any registry state reached by valid trace operations,
`find pid addr` returns exactly the stored range with
`start ≤ addr < end` when one exists, and `none` otherwise (so an address
equal to a range's exclusive end, an address below every stored start,
and any address under a pid with no ranges all yield `none`). -/
theorem find_returns_covering_range (ops : List MapOp)
    (hops : ∀ op ∈ ops, mapOpValid op = true) (pid addr : Nat) :
    (∀ e, (runMapOps ops).find pid addr = some e ↔
      e ∈ (runMapOps ops).process_maps pid ∧ e.start ≤ addr ∧ addr < e.«end») ∧
    ((runMapOps ops).find pid addr = none ↔
      ∀ e ∈ (runMapOps ops).process_maps pid, ¬(e.start ≤ addr ∧ addr < e.«end»)) :=
  find_spec_of_valid _ pid addr (runMapOps_valid ops hops pid)

/-- Claim C4: a self-fork leaves the registry unchanged; a fork onto a
distinct child pid gives the child the parent's current list, after which
an insert into the parent's overlay leaves the child's overlay unchanged
and an insert into the child's overlay leaves the parent's unchanged. -/
theorem fork_pid_noop_and_isolation (pm : ProcessMaps) (pid ppid : Nat) :
    (pid = ppid → pm.fork_pid pid ppid = pm) ∧
    (pid ≠ ppid →
      (pm.fork_pid pid ppid).process_maps pid = pm.process_maps ppid ∧
      (∀ m, ((pm.fork_pid pid ppid).add ppid m).process_maps pid =
        (pm.fork_pid pid ppid).process_maps pid) ∧
      (∀ m, ((pm.fork_pid pid ppid).add pid m).process_maps ppid =
        (pm.fork_pid pid ppid).process_maps ppid)) := by
  constructor
  · intro h
    simp [ProcessMaps.fork_pid, h]
  · intro h
    refine ⟨?_, ?_, ?_⟩
    · simp [ProcessMaps.fork_pid, if_neg h]
    · intro m
      simp [ProcessMaps.add, if_neg h]
    · intro m
      simp [ProcessMaps.add, if_neg (Ne.symm h)]

/-- Claim C10: a fork onto a distinct child pid replaces the child's whole
list with the parent's current list (never merging with the child's prior
ranges), and when the parent has no ranges the child's overlay becomes
the empty list. -/
theorem fork_pid_replaces_child_list (pm : ProcessMaps) (pid ppid : Nat)
    (h : pid ≠ ppid) :
    (pm.fork_pid pid ppid).process_maps pid = pm.process_maps ppid ∧
    (pm.process_maps ppid = [] → (pm.fork_pid pid ppid).process_maps pid = []) := by
  have hchild : (pm.fork_pid pid ppid).process_maps pid = pm.process_maps ppid := by
    simp [ProcessMaps.fork_pid, if_neg h]
  exact ⟨hchild, fun hempty => by rw [hchild, hempty]⟩

/-- Witness for claim C2 at a concrete overlapping insert sequence. -/
theorem add_sequences_keep_lists_valid_witness :
    (∀ p ∈ [((5 : Nat), (⟨0, 100, "a"⟩ : MapEntry)), (5, ⟨10, 20, "b"⟩), (5, ⟨90, 200, "c"⟩)],
      p.2.start < p.2.«end») ∧
    (((runAdds [((5 : Nat), (⟨0, 100, "a"⟩ : MapEntry)), (5, ⟨10, 20, "b"⟩),
        (5, ⟨90, 200, "c"⟩)]).process_maps 5).Pairwise (fun a b => a.start < b.start) ∧
      (∀ e ∈ (runAdds [((5 : Nat), (⟨0, 100, "a"⟩ : MapEntry)), (5, ⟨10, 20, "b"⟩),
        (5, ⟨90, 200, "c"⟩)]).process_maps 5, e.start < e.«end») ∧
      ((runAdds [((5 : Nat), (⟨0, 100, "a"⟩ : MapEntry)), (5, ⟨10, 20, "b"⟩),
        (5, ⟨90, 200, "c"⟩)]).process_maps 5).Pairwise
        (fun a b => a.«end» ≤ b.start ∨ b.«end» ≤ a.start)) :=
  ⟨by decide,
   add_sequences_keep_lists_valid
     [((5 : Nat), (⟨0, 100, "a"⟩ : MapEntry)), (5, ⟨10, 20, "b"⟩), (5, ⟨90, 200, "c"⟩)]
     (by decide) 5⟩

/-- Witness for claim C3: an interior address is a hit, the exclusive end, an
address below every range, and an unknown pid are misses. -/
theorem find_returns_covering_range_witness :
    (∀ op ∈ [MapOp.add 1 ⟨10, 20, "a"⟩], mapOpValid op = true) ∧
    (runMapOps [MapOp.add 1 ⟨10, 20, "a"⟩]).find 1 15 = some ⟨10, 20, "a"⟩ ∧
    (runMapOps [MapOp.add 1 ⟨10, 20, "a"⟩]).find 1 20 = none ∧
    (runMapOps [MapOp.add 1 ⟨10, 20, "a"⟩]).find 1 5 = none ∧
    (runMapOps [MapOp.add 1 ⟨10, 20, "a"⟩]).find 7 15 = none :=
  ⟨by decide,
   ((find_returns_covering_range [MapOp.add 1 ⟨10, 20, "a"⟩] (by decide) 1 15).1
     ⟨10, 20, "a"⟩).mpr (by decide),
   (find_returns_covering_range [MapOp.add 1 ⟨10, 20, "a"⟩] (by decide) 1 20).2.mpr (by decide),
   (find_returns_covering_range [MapOp.add 1 ⟨10, 20, "a"⟩] (by decide) 1 5).2.mpr (by decide),
   (find_returns_covering_range [MapOp.add 1 ⟨10, 20, "a"⟩] (by decide) 7 15).2.mpr (by decide)⟩

/-- Witness for claim C4 at a concrete registry: self-fork is a no-op, and
after `fork_pid 2 1` inserts into either side leave the other unchanged. -/
theorem fork_pid_noop_and_isolation_witness :
    ((runMapOps [MapOp.add 1 ⟨10, 20, "a"⟩]).fork_pid 1 1 =
      runMapOps [MapOp.add 1 ⟨10, 20, "a"⟩]) ∧
    ((runMapOps [MapOp.add 1 ⟨10, 20, "a"⟩]).fork_pid 2 1).process_maps 2 =
      (runMapOps [MapOp.add 1 ⟨10, 20, "a"⟩]).process_maps 1 ∧
    (((runMapOps [MapOp.add 1 ⟨10, 20, "a"⟩]).fork_pid 2 1).add 1
        ⟨30, 40, "b"⟩).process_maps 2 =
      ((runMapOps [MapOp.add 1 ⟨10, 20, "a"⟩]).fork_pid 2 1).process_maps 2 ∧
    (((runMapOps [MapOp.add 1 ⟨10, 20, "a"⟩]).fork_pid 2 1).add 2
        ⟨50, 60, "c"⟩).process_maps 1 =
      ((runMapOps [MapOp.add 1 ⟨10, 20, "a"⟩]).fork_pid 2 1).process_maps 1 :=
  ⟨(fork_pid_noop_and_isolation (runMapOps [MapOp.add 1 ⟨10, 20, "a"⟩]) 1 1).1 rfl,
   ((fork_pid_noop_and_isolation (runMapOps [MapOp.add 1 ⟨10, 20, "a"⟩]) 2 1).2
     (by decide)).1,
   ((fork_pid_noop_and_isolation (runMapOps [MapOp.add 1 ⟨10, 20, "a"⟩]) 2 1).2
     (by decide)).2.1 ⟨30, 40, "b"⟩,
   ((fork_pid_noop_and_isolation (runMapOps [MapOp.add 1 ⟨10, 20, "a"⟩]) 2 1).2
     (by decide)).2.2 ⟨50, 60, "c"⟩⟩

/-- Structural view of `add_sample_result`: the per-file results change only
when the sample is retained, and then only at the anchor's filename. -/
theorem add_sample_result_file_results (rep : UnwindingResultErrorReport)
    (s : SampleResult) (j : CallChainRecord) :
    (rep.add_sample_result s j).file_results =
      if rep.should_omit s j then rep.file_results
      else fun f => if f = (anchor s.callchain).filename
        then (rep.file_results (anchor s.callchain).filename).add_sample_result s
        else rep.file_results f := by
  have homit : ({ rep with unwinding_times :=
      rep.unwinding_times.add_time s.unwinding_result.used_time } :
      UnwindingResultErrorReport).should_omit s j = rep.should_omit s j := rfl
  simp only [UnwindingResultErrorReport.add_sample_result, homit]
  split <;> rfl

/-- Structural view of `add_sample_result`: the timing statistics are updated
with the sample's `used_time` whether or not the sample is omitted. -/
theorem add_sample_result_unwinding_times (rep : UnwindingResultErrorReport)
    (s : SampleResult) (j : CallChainRecord) :
    (rep.add_sample_result s j).unwinding_times =
      rep.unwinding_times.add_time s.unwinding_result.used_time := by
  simp only [UnwindingResultErrorReport.add_sample_result]
  split <;> rfl

/-- Claim C5: a sample whose anchor frame's offset-in-file equals that of a
sample already stored under the (anchor filename, anchor function name,
stop reason) triple leaves the per-file aggregation unchanged, whatever
its pid, tid or timestamp. -/
theorem duplicate_anchor_is_discarded (rep : UnwindingResultErrorReport)
    (s : SampleResult) (j : CallChainRecord) (hne : s.callchain ≠ [])
    (hdup : ∃ r ∈ ((rep.file_results (anchor s.callchain).filename).function_results
        (anchor s.callchain).function_name).sample_results s.unwinding_result.stop_reason,
      (anchor r.callchain).vaddr_in_file = (anchor s.callchain).vaddr_in_file) :
    (rep.add_sample_result s j).file_results = rep.file_results := by
  obtain ⟨r, hr, hvaddr⟩ := hdup
  have hany : (((rep.file_results (anchor s.callchain).filename).function_results
      (anchor s.callchain).function_name).sample_results s.unwinding_result.stop_reason).any
      (fun r => (anchor r.callchain).vaddr_in_file == (anchor s.callchain).vaddr_in_file) = true :=
    List.any_eq_true.mpr ⟨r, hr, by simpa using hvaddr⟩
  have hfrEq : ((rep.file_results (anchor s.callchain).filename).function_results
      (anchor s.callchain).function_name).add_sample_result s =
      (rep.file_results (anchor s.callchain).filename).function_results
        (anchor s.callchain).function_name := by
    simp only [FunctionResult.add_sample_result]
    rw [if_pos hany]
  have hfileEq : (rep.file_results (anchor s.callchain).filename).add_sample_result s =
      rep.file_results (anchor s.callchain).filename := by
    show FileResult.mk _ = _
    have hfun : ∀ g, (if g = (anchor s.callchain).function_name
        then ((rep.file_results (anchor s.callchain).filename).function_results
          (anchor s.callchain).function_name).add_sample_result s
        else (rep.file_results (anchor s.callchain).filename).function_results g) =
        (rep.file_results (anchor s.callchain).filename).function_results g := by
      intro g
      by_cases hg : g = (anchor s.callchain).function_name
      · rw [if_pos hg, hfrEq, hg]
      · rw [if_neg hg]
    rw [funext hfun]
  rw [add_sample_result_file_results]
  by_cases homit : rep.should_omit s j
  · rw [if_pos homit]
  · rw [if_neg homit]
    funext f
    by_cases hf : f = (anchor s.callchain).filename
    · rw [if_pos hf, hfileEq, hf]
    · rw [if_neg hf]

/-- Folding samples that all carry the same stop reason and pairwise distinct
anchor offsets (also distinct from what is already stored) keeps the first
ten of stored-then-new, in arrival order. -/
theorem fold_distinct_samples_take_ten (sr : String) :
    ∀ (ss : List SampleResult) (fr : FunctionResult),
      (∀ s ∈ ss, s.unwinding_result.stop_reason = sr) →
      (fr.sample_results sr ++ ss).Pairwise
        (fun a b => (anchor a.callchain).vaddr_in_file ≠ (anchor b.callchain).vaddr_in_file) →
      (fr.sample_results sr).length ≤ 10 →
      (ss.foldl FunctionResult.add_sample_result fr).sample_results sr =
        (fr.sample_results sr ++ ss).take 10 := by
  intro ss
  induction ss with
  | nil =>
      intro fr _ _ hlen
      simp [List.take_of_length_le hlen]
  | cons s rest ih =>
      intro fr hsr hpw hlen
      have hs_sr : s.unwinding_result.stop_reason = sr :=
        hsr s (List.mem_cons_self _ _)
      obtain ⟨hp1, hp2, hp12⟩ := List.pairwise_append.mp hpw
      have hnodup : ((fr.sample_results sr).any
          (fun r => (anchor r.callchain).vaddr_in_file ==
            (anchor s.callchain).vaddr_in_file)) = false := by
        rw [List.any_eq_false]
        intro r hr
        have := hp12 r hr s (List.mem_cons_self _ _)
        simpa using this
      rw [List.foldl_cons]
      by_cases hcap : (fr.sample_results sr).length < 10
      · have hstep : fr.add_sample_result s =
            ⟨fun k => if k = sr then fr.sample_results sr ++ [s] else fr.sample_results k⟩ := by
          simp only [FunctionResult.add_sample_result, hs_sr, hnodup, Bool.false_eq_true,
            if_false, if_pos hcap]
        rw [hstep]
        have hlist : (FunctionResult.mk (fun k => if k = sr then fr.sample_results sr ++ [s]
            else fr.sample_results k)).sample_results sr = fr.sample_results sr ++ [s] := by
          simp
        have happ : (fr.sample_results sr ++ [s]) ++ rest = fr.sample_results sr ++ s :: rest := by
          simp
        rw [ih _ (fun x hx => hsr x (List.mem_cons_of_mem _ hx))
          (by rw [hlist, happ]; exact hpw)
          (by rw [hlist]; simp; omega), hlist, happ]
      · have hlen10 : (fr.sample_results sr).length = 10 := by omega
        have hstep : fr.add_sample_result s = fr := by
          simp only [FunctionResult.add_sample_result, hs_sr, hnodup, Bool.false_eq_true,
            if_false, if_neg hcap]
        rw [hstep]
        have hsub : (fr.sample_results sr ++ rest).Sublist (fr.sample_results sr ++ s :: rest) :=
          List.Sublist.append_left (List.sublist_cons_self _ _) _
        rw [ih fr (fun x hx => hsr x (List.mem_cons_of_mem _ hx)) (hpw.sublist hsub) hlen]
        rw [List.take_append_eq_append_take, List.take_append_eq_append_take]
        rw [List.take_of_length_le (le_of_eq hlen10), hlen10]
        simp

/-- Claim C6: feeding 11 samples with one stop reason and pairwise distinct
anchor offsets into a fresh `FunctionResult` stores exactly the first 10
in arrival order; moreover one `add_sample_result` call never grows any
stop reason's list beyond 10 entries. -/
theorem function_result_caps_at_ten :
    (∀ (sr : String) (ss : List SampleResult), ss.length = 11 →
      (∀ s ∈ ss, s.unwinding_result.stop_reason = sr) →
      ss.Pairwise
        (fun a b => (anchor a.callchain).vaddr_in_file ≠ (anchor b.callchain).vaddr_in_file) →
      (runFunctionSamples ss).sample_results sr = ss.take 10 ∧
        ((runFunctionSamples ss).sample_results sr).length = 10) ∧
    (∀ (fr : FunctionResult) (s : SampleResult),
      (∀ k, (fr.sample_results k).length ≤ 10) →
      ∀ k, ((fr.add_sample_result s).sample_results k).length ≤ 10) := by
  constructor
  · intro sr ss hlen hsr hpw
    have hinit : (FunctionResult.init.sample_results sr) = [] := rfl
    have hmain := fold_distinct_samples_take_ten sr ss FunctionResult.init hsr
      (by rw [hinit]; simpa using hpw) (by rw [hinit]; simp)
    rw [hinit] at hmain
    simp only [List.nil_append] at hmain
    have hrun : runFunctionSamples ss = ss.foldl FunctionResult.add_sample_result
        FunctionResult.init := rfl
    rw [hrun, hmain]
    rw [List.length_take, hlen]
    exact ⟨rfl, rfl⟩
  · intro fr s h k
    simp only [FunctionResult.add_sample_result]
    split
    · exact h k
    · split
      · by_cases hk : k = s.unwinding_result.stop_reason
        · subst hk
          simp only [eq_self_iff_true, if_true, List.length_append, List.length_singleton]
          have := h s.unwinding_result.stop_reason
          omega
        · simpa only [if_neg hk] using h k
      · exact h k

/-- Claim C7: a sample whose anchor frame's filename contains one of the two
in-memory-code markers is omitted, for every flag value and every joined
chain (the marker check precedes both completeness checks). -/
theorem in_memory_code_always_omitted (rep : UnwindingResultErrorReport)
    (s : SampleResult) (j : CallChainRecord) (hne : s.callchain ≠ [])
    (hmark : ∃ name ∈ in_memory_code_markers,
      strContains (anchor s.callchain).filename name = true) :
    rep.should_omit s j = true := by
  obtain ⟨name, hmem, hc⟩ := hmark
  have hany : (in_memory_code_markers.any
      (fun name => strContains (anchor s.callchain).filename name)) = true :=
    List.any_eq_true.mpr ⟨name, hmem, hc⟩
  simp only [UnwindingResultErrorReport.should_omit]
  rw [if_pos hany]

/-- Witness for claim C7: `anonSample`'s anchor is in the JIT cache and its
chain is even complete, yet it is omitted under either flag value. -/
theorem in_memory_code_always_omitted_witness :
    (anonSample.callchain ≠ []) ∧
    (∃ name ∈ in_memory_code_markers,
      strContains (anchor anonSample.callchain).filename name = true) ∧
    (UnwindingResultErrorReport.init true).should_omit anonSample demoJoined = true ∧
    (UnwindingResultErrorReport.init false).should_omit anonSample demoJoined = true :=
  ⟨by decide, by decide,
   in_memory_code_always_omitted (UnwindingResultErrorReport.init true) anonSample
     demoJoined (by decide) (by decide),
   in_memory_code_always_omitted (UnwindingResultErrorReport.init false) anonSample
     demoJoined (by decide) (by decide)⟩

/-- Folding samples into a report adds exactly one to the timing count per
sample, omitted or not. -/
theorem foldl_add_sample_count :
    ∀ (l : List (SampleResult × CallChainRecord)) (rep : UnwindingResultErrorReport),
      ((l.foldl (fun r p => r.add_sample_result p.1 p.2) rep).unwinding_times.count) =
        rep.unwinding_times.count + l.length := by
  intro l
  induction l with
  | nil => intro rep; simp
  | cons p rest ih =>
      intro rep
      rw [List.foldl_cons, ih, add_sample_result_unwinding_times]
      simp only [UnwindingTimes.add_time, List.length_cons]
      omega

/-- Claim C8: after feeding any sequence of resolved samples to a fresh
report, the timing count equals the number of samples processed,
including every omitted one (the timing update precedes and is
independent of the omission decision). -/
theorem timing_counts_every_sample (flag : Bool)
    (l : List (SampleResult × CallChainRecord)) (h : ∀ p ∈ l, p.1.callchain ≠ []) :
    (runSamples flag l).unwinding_times.count = l.length := by
  have hfold := foldl_add_sample_count l (UnwindingResultErrorReport.init flag)
  simpa [runSamples, UnwindingResultErrorReport.init, UnwindingTimes.init] using hfold

/-- Witness for claim C6: eleven samples with distinct anchor offsets keep
exactly the first ten, and one `add_sample_result` call on a bounded
`FunctionResult` keeps every list within ten entries. -/
theorem function_result_caps_at_ten_witness :
    (((List.range 11).map capSample).length = 11) ∧
    (∀ s ∈ (List.range 11).map capSample, s.unwinding_result.stop_reason = capReason) ∧
    (((List.range 11).map capSample).Pairwise
      (fun a b => (anchor a.callchain).vaddr_in_file ≠ (anchor b.callchain).vaddr_in_file)) ∧
    ((runFunctionSamples ((List.range 11).map capSample)).sample_results capReason =
        ((List.range 11).map capSample).take 10 ∧
      ((runFunctionSamples ((List.range 11).map capSample)).sample_results capReason).length
        = 10) ∧
    (∀ k, ((FunctionResult.init.add_sample_result plainSample).sample_results k).length ≤ 10) :=
  ⟨by decide, by decide, by decide,
   function_result_caps_at_ten.1 capReason ((List.range 11).map capSample)
     (by decide) (by decide) (by decide),
   function_result_caps_at_ten.2 FunctionResult.init plainSample
     (fun k => by simp [FunctionResult.init])⟩

/-- Witness for claim C8: one omitted and one retained sample still count as
two unwinding attempts (and the omitted one is indeed omitted). -/
theorem timing_counts_every_sample_witness :
    (∀ p ∈ [(anonSample, demoJoined), (plainSample, demoJoined)], p.1.callchain ≠ []) ∧
    (UnwindingResultErrorReport.init false).should_omit anonSample demoJoined = true ∧
    (runSamples false [(anonSample, demoJoined), (plainSample, demoJoined)]).unwinding_times.count = 2 :=
  ⟨by decide, by decide,
   timing_counts_every_sample false [(anonSample, demoJoined), (plainSample, demoJoined)]
     (by decide)⟩

/-- Witness for claim C5: `dupSample` shares `plainSample`'s anchor offset
under the same (file, function, stop reason) triple, so recording it
changes nothing, despite its different pid, tid and timestamp. -/
theorem duplicate_anchor_is_discarded_witness :
    (dupSample.callchain ≠ []) ∧
    (∃ r ∈ ((dupDemoReport.file_results
        (anchor dupSample.callchain).filename).function_results
        (anchor dupSample.callchain).function_name).sample_results
        dupSample.unwinding_result.stop_reason,
      (anchor r.callchain).vaddr_in_file = (anchor dupSample.callchain).vaddr_in_file) ∧
    (dupDemoReport.add_sample_result dupSample demoJoined).file_results =
      dupDemoReport.file_results :=
  ⟨by decide, by decide,
   duplicate_anchor_is_discarded dupDemoReport dupSample demoJoined (by decide) (by decide)⟩

/-- Unfolding of the bad-chain-type predicate over the head line. -/
theorem hasBadChainType_cons (ct : String) (l : DumpLine) (rest : List DumpLine) :
    hasBadChainType ct (l :: rest) ↔
      (∃ s, l = DumpLine.chainTypeLine s ∧ s ≠ ct) ∨ hasBadChainType ct rest := by
  unfold hasBadChainType
  constructor
  · rintro ⟨s, hmem, hne⟩
    rcases List.mem_cons.mp hmem with h | h
    · exact Or.inl ⟨s, h.symm, hne⟩
    · exact Or.inr ⟨s, h, hne⟩
  · rintro (⟨s, hl, hne⟩ | ⟨s, hmem, hne⟩)
    · exact ⟨s, List.mem_cons.mpr (Or.inl hl.symm), hne⟩
    · exact ⟨s, List.mem_cons.mpr (Or.inr hmem), hne⟩

/-- The record-body loop fails exactly when the body carries a `chain_type`
line with the wrong tag (the only fatal line). -/
theorem runParseLines_error_iff (ct : String) :
    ∀ (lines : List DumpLine) (st : ParseSt),
      (∃ e, runParseLines ct st lines = Except.error e) ↔ hasBadChainType ct lines := by
  intro lines
  induction lines with
  | nil =>
      intro st
      simp [runParseLines, hasBadChainType]
  | cons line rest ih =>
      intro st
      cases line with
      | pidLine n =>
          simp only [runParseLines, process_callchain_line]
          rw [ih, hasBadChainType_cons]
          simp
      | tidLine n =>
          simp only [runParseLines, process_callchain_line]
          rw [ih, hasBadChainType_cons]
          simp
      | chainTypeLine s =>
          by_cases hs : s = ct
          · simp only [runParseLines, process_callchain_line, if_pos hs]
            rw [ih, hasBadChainType_cons]
            subst hs
            simp
          · simp only [runParseLines, process_callchain_line, if_neg hs]
            rw [hasBadChainType_cons]
            constructor
            · intro _
              exact Or.inl ⟨s, rfl, hs⟩
            · intro _
              exact ⟨unexpected_dump_output, rfl⟩
      | ipLine ip sp =>
          simp only [runParseLines, process_callchain_line]
          rw [ih, hasBadChainType_cons]
          simp
      | callchainMarker =>
          simp only [runParseLines, process_callchain_line]
          rw [ih, hasBadChainType_cons]
          simp
      | chainEntry fn file v =>
          by_cases hic : st.in_callchain
          · simp only [runParseLines, process_callchain_line, if_pos hic]
            rw [ih, hasBadChainType_cons]
            simp
          · simp only [runParseLines, process_callchain_line, if_neg hic]
            rw [ih, hasBadChainType_cons]
            simp
      | otherLine =>
          simp only [runParseLines, process_callchain_line]
          rw [ih, hasBadChainType_cons]
          simp

/-- When the record-body loop succeeds, its final state is exactly the
accumulation of the body: last pid/tid line, the ip/sp pairs in order,
and the (function, file, offset) triples in order. -/
theorem runParseLines_ok_state (ct : String) :
    ∀ (lines : List DumpLine) (st st' : ParseSt),
      runParseLines ct st lines = Except.ok st' →
      st'.pid = lastPidFrom st.pid lines ∧
      st'.tid = lastTidFrom st.tid lines ∧
      st'.ips = st.ips ++ (ipPairsOf lines).map Prod.fst ∧
      st'.sps = st.sps ++ (ipPairsOf lines).map Prod.snd ∧
      st'.function_names = st.function_names ++
        (triplesOfAux st.in_callchain lines).map (fun t => t.1) ∧
      st'.filenames = st.filenames ++
        (triplesOfAux st.in_callchain lines).map (fun t => t.2.1) ∧
      st'.vaddr_in_files = st.vaddr_in_files ++
        (triplesOfAux st.in_callchain lines).map (fun t => t.2.2) := by
  intro lines
  induction lines with
  | nil =>
      intro st st' h
      simp only [runParseLines] at h
      injection h with h
      subst h
      simp [lastPidFrom, lastTidFrom, ipPairsOf, triplesOfAux]
  | cons line rest ih =>
      intro st st' h
      cases line with
      | pidLine n =>
          simp only [runParseLines, process_callchain_line] at h
          exact ih _ _ h
      | tidLine n =>
          simp only [runParseLines, process_callchain_line] at h
          exact ih _ _ h
      | chainTypeLine s =>
          by_cases hs : s = ct
          · simp only [runParseLines, process_callchain_line, if_pos hs] at h
            exact ih _ _ h
          · simp only [runParseLines, process_callchain_line, if_neg hs] at h
            cases h
      | ipLine ip sp =>
          simp only [runParseLines, process_callchain_line] at h
          obtain ⟨h1, h2, h3, h4, h5, h6, h7⟩ := ih _ _ h
          refine ⟨h1, h2, ?_, ?_, h5, h6, h7⟩
          · rw [h3]
            simp [ipPairsOf, List.filterMap_cons]
          · rw [h4]
            simp [ipPairsOf, List.filterMap_cons]
      | callchainMarker =>
          simp only [runParseLines, process_callchain_line] at h
          exact ih _ _ h
      | chainEntry fn file v =>
          by_cases hic : st.in_callchain
          · simp only [runParseLines, process_callchain_line, if_pos hic] at h
            obtain ⟨h1, h2, h3, h4, h5, h6, h7⟩ := ih _ _ h
            refine ⟨h1, h2, h3, h4, ?_, ?_, ?_⟩
            · rw [h5]
              simp only [triplesOfAux, hic, if_true, List.map_cons]
              simp
            · rw [h6]
              simp only [triplesOfAux, hic, if_true, List.map_cons]
              simp
            · rw [h7]
              simp only [triplesOfAux, hic, if_true, List.map_cons]
              simp
          · simp only [runParseLines, process_callchain_line, if_neg hic] at h
            obtain ⟨h1, h2, h3, h4, h5, h6, h7⟩ := ih _ _ h
            have hicf : st.in_callchain = false := Bool.eq_false_iff.mpr hic
            refine ⟨h1, h2, h3, h4, ?_, ?_, ?_⟩
            · rw [h5, hicf]
              simp [triplesOfAux]
            · rw [h6, hicf]
              simp [triplesOfAux]
            · rw [h7, hicf]
              simp [triplesOfAux]
      | otherLine =>
          simp only [runParseLines, process_callchain_line] at h
          exact ih _ _ h

/-- Claim C9: `parse_callchain_record` fails (fatally, modelled as
`Except.error`) exactly when the record is malformed in one of the
spec's four ways -- wrong chain-type tag, missing pid or tid, zero
(ip, sp) pairs, or a pair count differing from the triple count -- and on
well-formed input it returns the record with its last pid and tid and one
`CallChainNode` per frame, in input order. -/
theorem parse_callchain_record_fatal_iff_malformed (ct : String) (lines : List DumpLine)
    (pm : ProcessMaps) :
    ((∃ e, parse_callchain_record ct lines pm = Except.error e) ↔ specMalformed ct lines) ∧
    (∀ r, parse_callchain_record ct lines pm = Except.ok r →
      r.pid = lastPidOf lines ∧ r.tid = lastTidOf lines ∧
      r.callchain.length = (ipPairsOf lines).length ∧
      (∀ j, j < (ipPairsOf lines).length →
        (r.callchain.getD j default).ip = ((ipPairsOf lines).getD j (0, 0)).1 ∧
        (r.callchain.getD j default).sp = ((ipPairsOf lines).getD j (0, 0)).2 ∧
        (r.callchain.getD j default).function_name = ((triplesOf lines).getD j default).1 ∧
        (r.callchain.getD j default).filename = ((triplesOf lines).getD j default).2.1 ∧
        (r.callchain.getD j default).vaddr_in_file = ((triplesOf lines).getD j default).2.2)) := by
  cases hrun : runParseLines ct ParseSt.init lines with
  | error e =>
      have hbad : hasBadChainType ct lines :=
        (runParseLines_error_iff ct lines ParseSt.init).mp ⟨e, hrun⟩
      constructor
      · constructor
        · intro _
          exact Or.inl hbad
        · intro _
          refine ⟨e, ?_⟩
          simp only [parse_callchain_record, hrun]
      · intro r hr
        simp only [parse_callchain_record, hrun] at hr
        exact Except.noConfusion hr
  | ok st =>
      have hnobad : ¬ hasBadChainType ct lines := by
        intro hb
        obtain ⟨e, he⟩ := (runParseLines_error_iff ct lines ParseSt.init).mpr hb
        rw [hrun] at he
        cases he
      obtain ⟨h1, h2, h3, h4, h5, h6, h7⟩ :=
        runParseLines_ok_state ct lines ParseSt.init st hrun
      have hpid : st.pid = lastPidOf lines := h1
      have htid : st.tid = lastTidOf lines := h2
      have hips : st.ips = (ipPairsOf lines).map Prod.fst := h3
      have hsps : st.sps = (ipPairsOf lines).map Prod.snd := h4
      have hfns : st.function_names = (triplesOf lines).map (fun t => t.1) := h5
      have hfiles : st.filenames = (triplesOf lines).map (fun t => t.2.1) := h6
      have hvaddrs : st.vaddr_in_files = (triplesOf lines).map (fun t => t.2.2) := h7
      have hcond : (st.pid = none ∨ st.tid = none ∨ st.ips.length = 0 ∨
          st.sps.length ≠ st.ips.length ∨ st.function_names.length ≠ st.ips.length ∨
          st.filenames.length ≠ st.ips.length ∨ st.vaddr_in_files.length ≠ st.ips.length ∨
          (st.ips.map (fun ip => (lookupMapBound pm st.pid ip).1)).length ≠ st.ips.length ∨
          (st.ips.map (fun ip => (lookupMapBound pm st.pid ip).2)).length ≠ st.ips.length) ↔
          (lastPidOf lines = none ∨ lastTidOf lines = none ∨ ipPairsOf lines = [] ∨
            (triplesOf lines).length ≠ (ipPairsOf lines).length) := by
        rw [hpid, htid, hips, hsps, hfns, hfiles, hvaddrs]
        simp [List.length_map, List.length_eq_zero]
      constructor
      · constructor
        · rintro ⟨e', he'⟩
          by_cases hC : (st.pid = none ∨ st.tid = none ∨ st.ips.length = 0 ∨
              st.sps.length ≠ st.ips.length ∨ st.function_names.length ≠ st.ips.length ∨
              st.filenames.length ≠ st.ips.length ∨ st.vaddr_in_files.length ≠ st.ips.length ∨
              (st.ips.map (fun ip => (lookupMapBound pm st.pid ip).1)).length ≠ st.ips.length ∨
              (st.ips.map (fun ip => (lookupMapBound pm st.pid ip).2)).length ≠ st.ips.length)
          · exact Or.inr (hcond.mp hC)
          · exfalso
            simp only [parse_callchain_record, hrun] at he'
            rw [if_neg hC] at he'
            cases he'
        · intro hmal
          rcases hmal with hb | hrest
          · exact absurd hb hnobad
          · refine ⟨unexpected_dump_output, ?_⟩
            simp only [parse_callchain_record, hrun]
            rw [if_pos (hcond.mpr hrest)]
      · intro r hr
        simp only [parse_callchain_record, hrun] at hr
        by_cases hC : (st.pid = none ∨ st.tid = none ∨ st.ips.length = 0 ∨
            st.sps.length ≠ st.ips.length ∨ st.function_names.length ≠ st.ips.length ∨
            st.filenames.length ≠ st.ips.length ∨ st.vaddr_in_files.length ≠ st.ips.length ∨
            (st.ips.map (fun ip => (lookupMapBound pm st.pid ip).1)).length ≠ st.ips.length ∨
            (st.ips.map (fun ip => (lookupMapBound pm st.pid ip).2)).length ≠ st.ips.length)
        · rw [if_pos hC] at hr
          cases hr
        · rw [if_neg hC] at hr
          push_neg at hC
          obtain ⟨-, -, -, -, hfnlen, -, -, -, -⟩ := hC
          injection hr with hr
          subst hr
          have htlen : (triplesOf lines).length = (ipPairsOf lines).length := by
            rw [hfns] at hfnlen
            rw [hips] at hfnlen
            simpa [List.length_map] using hfnlen
          refine ⟨hpid, htid, ?_, ?_⟩
          · simp only [List.length_map, List.length_range, hips]
          · intro j hj
            have hjips : j < st.ips.length := by
              rw [hips, List.length_map]
              exact hj
            have hjt : j < (triplesOf lines).length := by
              rw [htlen]
              exact hj
            have hjc : j < ((List.range st.ips.length).map (fun k =>
                (⟨st.ips.getD k 0, st.sps.getD k 0, st.filenames.getD k default,
                  st.vaddr_in_files.getD k 0, st.function_names.getD k default,
                  (st.ips.map (fun ip => (lookupMapBound pm st.pid ip).1)).getD k 0,
                  (st.ips.map (fun ip => (lookupMapBound pm st.pid ip).2)).getD k 0⟩ :
                  CallChainNode))).length := by
              rw [List.length_map, List.length_range]
              exact hjips
            have hjpm : j < ((ipPairsOf lines).map Prod.fst).length := by
              rw [List.length_map]
              exact hj
            have hjsm : j < ((ipPairsOf lines).map Prod.snd).length := by
              rw [List.length_map]
              exact hj
            have hjt1 : j < ((triplesOf lines).map (fun t => t.1)).length := by
              rw [List.length_map]
              exact hjt
            have hjt2 : j < ((triplesOf lines).map (fun t => t.2.1)).length := by
              rw [List.length_map]
              exact hjt
            have hjt3 : j < ((triplesOf lines).map (fun t => t.2.2)).length := by
              rw [List.length_map]
              exact hjt
            have hnode : ((List.range st.ips.length).map (fun k =>
                (⟨st.ips.getD k 0, st.sps.getD k 0, st.filenames.getD k default,
                  st.vaddr_in_files.getD k 0, st.function_names.getD k default,
                  (st.ips.map (fun ip => (lookupMapBound pm st.pid ip).1)).getD k 0,
                  (st.ips.map (fun ip => (lookupMapBound pm st.pid ip).2)).getD k 0⟩ :
                  CallChainNode))).getD j default =
                (⟨st.ips.getD j 0, st.sps.getD j 0, st.filenames.getD j default,
                  st.vaddr_in_files.getD j 0, st.function_names.getD j default,
                  (st.ips.map (fun ip => (lookupMapBound pm st.pid ip).1)).getD j 0,
                  (st.ips.map (fun ip => (lookupMapBound pm st.pid ip).2)).getD j 0⟩ :
                  CallChainNode) := by
              rw [List.getD_eq_getElem _ _ hjc, List.getElem_map, List.getElem_range]
            refine ⟨?_, ?_, ?_, ?_, ?_⟩
            · rw [hnode]
              show st.ips.getD j 0 = ((ipPairsOf lines).getD j (0, 0)).1
              rw [hips, List.getD_eq_getElem _ _ hjpm, List.getElem_map,
                List.getD_eq_getElem _ _ hj]
            · rw [hnode]
              show st.sps.getD j 0 = ((ipPairsOf lines).getD j (0, 0)).2
              rw [hsps, List.getD_eq_getElem _ _ hjsm, List.getElem_map,
                List.getD_eq_getElem _ _ hj]
            · rw [hnode]
              show st.function_names.getD j default = ((triplesOf lines).getD j default).1
              rw [hfns, List.getD_eq_getElem _ _ hjt1, List.getElem_map,
                List.getD_eq_getElem _ _ hjt]
            · rw [hnode]
              show st.filenames.getD j default = ((triplesOf lines).getD j default).2.1
              rw [hfiles, List.getD_eq_getElem _ _ hjt2, List.getElem_map,
                List.getD_eq_getElem _ _ hjt]
            · rw [hnode]
              show st.vaddr_in_files.getD j default = ((triplesOf lines).getD j default).2.2
              rw [hvaddrs, List.getD_eq_getElem _ _ hjt3, List.getElem_map,
                List.getD_eq_getElem _ _ hjt]

/-- Lookup in the fresh registry always misses. -/
theorem find_init_none (pid addr : Nat) : ProcessMaps.init.find pid addr = none := by
  simp only [ProcessMaps.find, ProcessMaps.init, List.length_nil]
  rw [bisect_right]
  norm_num

/-- Map bounds resolved against the fresh registry are the zero sentinel. -/
theorem lookupMapBound_init (p : Option Nat) (ip : Nat) :
    lookupMapBound ProcessMaps.init p ip = (0, 0) := by
  cases p <;> simp [lookupMapBound, find_init_none]

/-- Evaluation of the parser on the witness record. -/
theorem parse_demoRecordLines :
    parse_callchain_record original_chain_type demoRecordLines ProcessMaps.init =
      Except.ok demoRecord := by
  have h1 : runParseLines original_chain_type ParseSt.init demoRecordLines =
      Except.ok ⟨some 10, some 11, [100], [200], ["f"], ["/a.so"], [16], true⟩ := by decide
  simp only [parse_callchain_record, h1, lookupMapBound_init]
  decide

/-- Witness for claim C9: a well-formed concrete record parses into its one
node with the right fields, and a record missing its tid is fatal. -/
theorem parse_callchain_record_fatal_iff_malformed_witness :
    (parse_callchain_record original_chain_type demoRecordLines ProcessMaps.init =
      Except.ok demoRecord) ∧
    (demoRecord.pid = lastPidOf demoRecordLines ∧
      demoRecord.tid = lastTidOf demoRecordLines ∧
      demoRecord.callchain.length = (ipPairsOf demoRecordLines).length ∧
      (∀ j, j < (ipPairsOf demoRecordLines).length →
        (demoRecord.callchain.getD j default).ip =
          ((ipPairsOf demoRecordLines).getD j (0, 0)).1 ∧
        (demoRecord.callchain.getD j default).sp =
          ((ipPairsOf demoRecordLines).getD j (0, 0)).2 ∧
        (demoRecord.callchain.getD j default).function_name =
          ((triplesOf demoRecordLines).getD j default).1 ∧
        (demoRecord.callchain.getD j default).filename =
          ((triplesOf demoRecordLines).getD j default).2.1 ∧
        (demoRecord.callchain.getD j default).vaddr_in_file =
          ((triplesOf demoRecordLines).getD j default).2.2)) ∧
    (∃ e, parse_callchain_record original_chain_type [DumpLine.pidLine 1] ProcessMaps.init =
      Except.error e) :=
  ⟨parse_demoRecordLines,
   (parse_callchain_record_fatal_iff_malformed original_chain_type demoRecordLines
     ProcessMaps.init).2 demoRecord parse_demoRecordLines,
   (parse_callchain_record_fatal_iff_malformed original_chain_type [DumpLine.pidLine 1]
     ProcessMaps.init).1.mpr (Or.inr (Or.inr (Or.inl (by decide))))⟩

/-- Witness for claim C10: forking child 2 from absent parent 1 discards the
child's prior range and leaves it with the empty list. -/
theorem fork_pid_replaces_child_list_witness :
    ((2 : Nat) ≠ 1) ∧
    ((runMapOps [MapOp.add 2 ⟨0, 10, "c"⟩]).fork_pid 2 1).process_maps 2 =
      (runMapOps [MapOp.add 2 ⟨0, 10, "c"⟩]).process_maps 1 ∧
    ((runMapOps [MapOp.add 2 ⟨0, 10, "c"⟩]).fork_pid 2 1).process_maps 2 = [] :=
  ⟨by decide,
   (fork_pid_replaces_child_list (runMapOps [MapOp.add 2 ⟨0, 10, "c"⟩]) 2 1 (by decide)).1,
   (fork_pid_replaces_child_list (runMapOps [MapOp.add 2 ⟨0, 10, "c"⟩]) 2 1 (by decide)).2
     (by decide)⟩
